import Mathlib

/-!
Verification development for the entitlement and inventory consumption engine
of the storepablo bot (src/cde/cde/main.py).  The Python handlers `key_cmd`,
`get_cmd`, `unban_user_end` and the add-stock conversation flow are embedded
as pure Lean functions over an explicit state record; persisted JSON files
become association lists.  Integers follow Python semantics (`Int` where the
code can go negative, `Nat` where only non-negative values are ever written).
-/

/-- Plan kind: the standard ("cuentas") namespace or the card namespace. -/
inductive Kind
  | normal
  | card
deriving DecidableEq, Repr

/-- Attachment kind stored with a rich stock item (`file_type` in the code). -/
inductive FileType
  | text
  | photo
  | video
  | animation
deriving DecidableEq, Repr

/-- A rich stock item: `{"account": ..., "file_id": ..., "file_type": ...}`. -/
structure RichItem where
  account : String
  fileId : Option String
  fileType : FileType
deriving DecidableEq, Repr

/-- A pool entry: either the legacy plain list of strings, or the new
`{"message": ..., "accounts"/"cards": [...]}` dictionary shape. -/
inductive Pool
  | legacy (items : List String)
  | rich (message : String) (items : List RichItem)
deriving DecidableEq, Repr

/-- One plan record: `{"nombre": ..., "max": ..., "usados": ...}`. -/
structure PlanState where
  nombre : String
  max : Int
  usados : Int
deriving DecidableEq, Repr

/-- One user record from users.json. -/
structure User where
  planNormal : PlanState
  planTarjetas : PlanState
  invalidKeyAttempts : Nat
deriving DecidableEq, Repr

/-- The persisted state: users.json, claves.json, card_keys.json, stock.json,
cards.json, ban_users.json, admins.json.  Dictionaries are association lists
in insertion order; key collections map a code to `(plan name, max uses)`. -/
structure BotState where
  users : List (Int × User)
  claves : List (String × (String × Nat))
  cardKeys : List (String × (String × Nat))
  stock : List (String × Pool)
  cards : List (String × Pool)
  bans : List Int
  admins : List Int
deriving DecidableEq, Repr

/-- Python `str.lower()` as a character-wise map. -/
def strLower (s : String) : String := ⟨s.data.map Char.toLower⟩

/-- Python `str.strip()`: drop leading and trailing whitespace. -/
def strTrim (s : String) : String :=
  ⟨((s.data.dropWhile Char.isWhitespace).reverse.dropWhile Char.isWhitespace).reverse⟩

/-- Split a character list at newline characters (Python `split('\n')`). -/
def splitNL : List Char → List (List Char)
  | [] => [[]]
  | c :: rest =>
    let r := splitNL rest
    if c == '\n' then [] :: r
    else
      match r with
      | [] => [[c]]
      | h :: t => (c :: h) :: t

/-- Dictionary lookup: value bound to the first occurrence of the key. -/
def lookup? {κ α : Type} [BEq κ] (l : List (κ × α)) (k : κ) : Option α :=
  (l.find? (fun p => p.1 == k)).map (fun p => p.2)

/-- Dictionary assignment `d[k] = v`: replaces the binding in place when the
key is present, otherwise appends it (Python dict insertion order). -/
def setKey {κ α : Type} [BEq κ] (l : List (κ × α)) (k : κ) (v : α) : List (κ × α) :=
  if l.any (fun p => p.1 == k) then
    l.map (fun p => if p.1 == k then (k, v) else p)
  else l ++ [(k, v)]

/-- Dictionary deletion `d.pop(k)`: removes the binding for `k` (dict keys are
unique, so filtering out the key is the same as removing the one binding). -/
def eraseKey {κ α : Type} [BEq κ] (l : List (κ × α)) (k : κ) : List (κ × α) :=
  l.filter (fun p => !(p.1 == k))

/-- Python slice `l[:c]`, including negative-index semantics. -/
def sliceTo {α : Type} (l : List α) (c : Int) : List α :=
  if 0 ≤ c then l.take c.toNat else l.take (l.length - (-c).toNat)

/-- Python slice `l[c:]`, including negative-index semantics. -/
def sliceFrom {α : Type} (l : List α) (c : Int) : List α :=
  if 0 ≤ c then l.drop c.toNat else l.drop (l.length - (-c).toNat)

/-- The case-insensitive pool search loop: first entry whose key lowercases to
`sitio` (the code breaks at the first match and keeps the original casing). -/
def findCI (l : List (String × Pool)) (sitio : String) : Option (String × Pool) :=
  l.find? (fun p => strLower p.1 == sitio)

/-- Python truthiness of a pool value: an empty legacy list is falsy, a
dictionary entry (which always has its two keys) is truthy. -/
def poolTruthy : Pool → Bool
  | .legacy items => !items.isEmpty
  | .rich _ _ => true

/-- The usage line `f"Usos: {usados}/{max}"` sent with delivered items. -/
def usosLine (usados maxi : Int) : String :=
  "Usos: " ++ toString usados ++ "/" ++ toString maxi

/-- The distinguished super-admin id (`ADMIN_ID` default in the code). -/
def ADMIN : Int := 7590578210

/-- The inactive plan record `{"nombre": "Sin plan", "max": 0, "usados": 0}`. -/
def defaultPlan : PlanState := { nombre := "Sin plan", max := 0, usados := 0 }

/-- The user record created on first contact. -/
def defaultUser : User :=
  { planNormal := defaultPlan, planTarjetas := defaultPlan, invalidKeyAttempts := 0 }

/-- User record for `uid`, with missing fields filled in as the handlers do. -/
def getUser (s : BotState) (uid : Int) : User :=
  (lookup? s.users uid).getD defaultUser

/-- The `check_ban` decorator condition: reject iff the caller is not the
super-admin and appears in ban_users.json. -/
def banGuardRejects (s : BotState) (uid : Int) : Bool :=
  uid != ADMIN && s.bans.contains uid

/-- The `is_admin` test: the super-admin or any id in admins.json. -/
def isAdminFn (s : BotState) (uid : Int) : Bool :=
  uid == ADMIN || s.admins.contains uid

/-- The redemption-blocking test: plan name is not the inactive sentinel and
`max > usados` (remaining balance strictly positive). -/
def planBlocksRedeem (p : PlanState) : Bool :=
  p.nombre != "Sin plan" && p.usados < p.max

/-- Outcome of `/key` (`key_cmd`). -/
inductive RedeemOutcome
  | rejectedBanned
  | planAlreadyActive (kind : Kind)
  | activated (kind : Kind) (plan : String) (maxUses : Nat)
  | invalidKey (remaining : Nat)
  | banned
deriving DecidableEq, Repr

/-- The `/key CLAVE` handler `key_cmd` under its `check_ban` guard.  The user
record is ensured and saved first; the code is looked up in claves.json, then
card_keys.json; an unknown code increments `invalid_key_attempts` and bans at
three or more. -/
def keyCmd (s : BotState) (uid : Int) (clave : String) : RedeemOutcome × BotState :=
  if banGuardRejects s uid then (.rejectedBanned, s)
  else
    let u := getUser s uid
    let s0 : BotState := { s with users := setKey s.users uid u }
    match lookup? s0.claves clave with
    | some pm =>
        if planBlocksRedeem u.planNormal then (.planAlreadyActive .normal, s0)
        else
          let u1 : User := { u with planNormal := { nombre := pm.1, max := (pm.2 : Int), usados := 0 } }
          (.activated .normal pm.1 pm.2,
           { s0 with claves := eraseKey s0.claves clave, users := setKey s0.users uid u1 })
    | none =>
      match lookup? s0.cardKeys clave with
      | some pm =>
          if planBlocksRedeem u.planTarjetas then (.planAlreadyActive .card, s0)
          else
            let u1 : User := { u with planTarjetas := { nombre := pm.1, max := (pm.2 : Int), usados := 0 } }
            (.activated .card pm.1 pm.2,
             { s0 with cardKeys := eraseKey s0.cardKeys clave, users := setKey s0.users uid u1 })
      | none =>
          let att := u.invalidKeyAttempts + 1
          let u1 : User := { u with invalidKeyAttempts := att }
          let s1 : BotState := { s0 with users := setKey s0.users uid u1 }
          if 3 ≤ att then
            (.banned,
             { s1 with bans := if s1.bans.contains uid then s1.bans else s1.bans ++ [uid] })
          else (.invalidKey (3 - att), s1)

/-- Outcome of `/get` (`get_cmd`). -/
inductive FetchOutcome
  | rejectedBanned
  | badQuantity
  | noPlanAtAll
  | needPlan (kind : Kind)
  | insufficientBalance (kind : Kind) (disp : Int)
  | insufficientStock (kind : Kind) (site : String)
  | notFound (site : String)
  | deliveredLegacy (kind : Kind) (site : String) (items : List String) (usos : String)
  | deliveredRich (kind : Kind) (site : String) (items : List RichItem)
      (message : String) (usos : String)
deriving DecidableEq, Repr

/-- Plan record of the given kind. -/
def planOf (u : User) : Kind → PlanState
  | .normal => u.planNormal
  | .card => u.planTarjetas

/-- Replace the plan record of the given kind. -/
def setPlan (u : User) : Kind → PlanState → User
  | .normal, p => { u with planNormal := p }
  | .card, p => { u with planTarjetas := p }

/-- Pool collection of the given kind (stock.json or cards.json). -/
def poolsOf (s : BotState) : Kind → List (String × Pool)
  | .normal => s.stock
  | .card => s.cards

/-- Replace the pool collection of the given kind. -/
def setPools (s : BotState) : Kind → List (String × Pool) → BotState
  | .normal, l => { s with stock := l }
  | .card, l => { s with cards := l }

/-- Guard on an empty sliced delivery in the rich-pool path.  Only the
standard accounts branch re-checks `if not cuentas_a_enviar` and reports
missing stock; the card branch has no such check and proceeds to persist the
usage update even when the slice is empty. -/
def emptySendGuard (kind : Kind) (toSend : List RichItem) : Bool :=
  match kind with
  | .normal => toSend.isEmpty
  | .card => false

/-- The shared serving logic of `get_cmd` once a truthy pool entry `(key,
pool)` has been found in the namespace `kind`: plan-active check, balance
check, stock check, then slice off the first `cant` items, bump `usados`, and
persist both the pool and the user record.  Error paths return before any
save, so they leave the state exactly as it was. -/
def serveBranch (s : BotState) (uid : Int) (u : User) (cant : Int)
    (kind : Kind) (key : String) (pool : Pool) : FetchOutcome × BotState :=
  let plan := planOf u kind
  if plan.nombre == "Sin plan" then (.needPlan kind, s)
  else
    let disp := plan.max - plan.usados
    if disp < cant then (.insufficientBalance kind disp, s)
    else
      match pool with
      | .rich msg items =>
          if items.isEmpty || (items.length : Int) < cant then (.insufficientStock kind key, s)
          else
            let toSend := sliceTo items cant
            if emptySendGuard kind toSend then (.insufficientStock kind key, s)
            else
              let usados1 := plan.usados + cant
              let u1 := setPlan u kind { plan with usados := usados1 }
              let s1 := setPools s kind (setKey (poolsOf s kind) key (.rich msg (sliceFrom items cant)))
              (.deliveredRich kind key toSend msg (usosLine usados1 plan.max),
               { s1 with users := setKey s1.users uid u1 })
      | .legacy items =>
          if items.isEmpty || (items.length : Int) < cant then (.insufficientStock kind key, s)
          else
            let usados1 := plan.usados + cant
            let u1 := setPlan u kind { plan with usados := usados1 }
            let s1 := setPools s kind (setKey (poolsOf s kind) key (.legacy (sliceFrom items cant)))
            (.deliveredLegacy kind key (sliceTo items cant) (usosLine usados1 plan.max),
             { s1 with users := setKey s1.users uid u1 })

/-- The card-namespace half of `get_cmd`: consulted only after the standard
lookup produced nothing truthy; `sitio` may already have been re-cased to the
original casing of a matching (but falsy) stock key. -/
def getCmdCards (s : BotState) (uid : Int) (u : User) (cant : Int) (sitio : String) :
    FetchOutcome × BotState :=
  match findCI s.cards sitio with
  | some kp =>
      if poolTruthy kp.2 then serveBranch s uid u cant .card kp.1 kp.2
      else (.notFound kp.1, s)
  | none => (.notFound sitio, s)

/-- The `/get sitio cant` handler `get_cmd` under its `check_ban` guard.
`cantArg = none` models a quantity that fails `int(...)` parsing.  The site is
stripped and lowered, resolved case-insensitively against stock.json first;
only a missing or falsy standard entry falls through to cards.json. -/
def getCmd (s : BotState) (uid : Int) (site : String) (cantArg : Option Int) :
    FetchOutcome × BotState :=
  if banGuardRejects s uid then (.rejectedBanned, s)
  else
    match cantArg with
    | none => (.badQuantity, s)
    | some cant =>
      let sitio := strLower (strTrim site)
      match lookup? s.users uid with
      | none => (.noPlanAtAll, s)
      | some u =>
        if u.planNormal.nombre == "Sin plan" && u.planTarjetas.nombre == "Sin plan" then
          (.noPlanAtAll, s)
        else
          match findCI s.stock sitio with
          | some kp =>
              if poolTruthy kp.2 then serveBranch s uid u cant .normal kp.1 kp.2
              else getCmdCards s uid u cant kp.1
          | none => getCmdCards s uid u cant sitio

/-- Outcome of the unban conversation step. -/
inductive UnbanOutcome
  | notAuthorized
  | notBanned
  | unbanned
deriving DecidableEq, Repr

/-- The unban step `unban_user_end` under its `check_admin` guard: remove the id from
ban_users.json and, when a user record exists, reset its
`invalid_key_attempts` to 0.  Plans are untouched. -/
def unbanUserEnd (s : BotState) (caller target : Int) : UnbanOutcome × BotState :=
  if !isAdminFn s caller then (.notAuthorized, s)
  else if !s.bans.contains target then (.notBanned, s)
  else
    let users1 :=
      match lookup? s.users target with
      | some u => setKey s.users target { u with invalidKeyAttempts := 0 }
      | none => s.users
    (.unbanned, { s with bans := s.bans.erase target, users := users1 })

/-- State of the add-stock conversation (`ConversationHandler` states
AWAITING_STOCK_SITE / _MESSAGE / _ACCOUNTS). -/
inductive StockFlow
  | idle
  | awaitingSite
  | awaitingMessage (site : String)
  | awaitingAccounts (site : String) (message : String) (buffer : List RichItem)
deriving DecidableEq, Repr

/-- One external turn fed to the ingestion flow. -/
inductive IngestEvent
  | textMsg (t : String)
  | mediaMsg (ft : FileType) (fid : String) (caption : Option String)
  | doneCmd
  | cancelCmd
deriving DecidableEq, Repr

/-- Text parsing of `receive_accounts`: one item per non-blank line, stripped. -/
def splitAccounts (t : String) : List String :=
  (((splitNL t.data).map (fun cs => strTrim ⟨cs⟩))).filter (fun a => a != "")

/-- One transition of the add-stock flow together with its effect on
stock.json.  `get_stock_site` lower-cases the key, `get_stock_message` stores
the message and clears the buffer, `receive_accounts` appends items, and
`finish_add_stock` (the `/done` signal) overwrites the pool entry at the
stored key with `{"message": message, "accounts": buffer}` when the buffer is
non-empty. -/
def stockFlowStep (stock : List (String × Pool)) (fl : StockFlow) (ev : IngestEvent) :
    StockFlow × List (String × Pool) :=
  match fl, ev with
  | _, .cancelCmd => (.idle, stock)
  | .awaitingSite, .textMsg t => (.awaitingMessage (strLower (strTrim t)), stock)
  | .awaitingMessage site, .textMsg t => (.awaitingAccounts site (strTrim t) [], stock)
  | .awaitingAccounts site msg buf, .textMsg t =>
      if t == "" then (.awaitingAccounts site msg buf, stock)
      else
        let accs := splitAccounts t
        if accs.isEmpty then (.awaitingAccounts site msg buf, stock)
        else
          (.awaitingAccounts site msg
            (buf ++ accs.map (fun a => { account := a, fileId := none, fileType := .text })), stock)
  | .awaitingAccounts site msg buf, .mediaMsg ft fid cap =>
      match cap with
      | none => (.awaitingAccounts site msg buf, stock)
      | some c =>
          if c == "" then (.awaitingAccounts site msg buf, stock)
          else
            (.awaitingAccounts site msg
              (buf ++ [{ account := strTrim c, fileId := some fid, fileType := ft }]), stock)
  | .awaitingAccounts site msg buf, .doneCmd =>
      if buf.isEmpty then (.idle, stock)
      else (.idle, setKey stock site (.rich msg buf))
  | st, _ => (st, stock)

/-- Run a list of turns through the add-stock flow. -/
def runIngest (start : List (String × Pool) × StockFlow) (evs : List IngestEvent) :
    List (String × Pool) × StockFlow :=
  evs.foldl (fun acc ev =>
    let r := stockFlowStep acc.1 acc.2 ev
    (r.2, r.1)) start

/-- A user-facing engine operation (the two guarded user commands). -/
inductive Op
  | redeem (uid : Int) (code : String)
  | fetch (uid : Int) (site : String) (cant : Option Int)
deriving DecidableEq, Repr

/-- State after one operation. -/
def execOp (s : BotState) : Op → BotState
  | .redeem uid code => (keyCmd s uid code).2
  | .fetch uid site cant => (getCmd s uid site cant).2

/-- State after a sequence of operations. -/
def execOps (s : BotState) (ops : List Op) : BotState := ops.foldl execOp s

/-- Namespace tag of a fetch outcome, when it has one. -/
def outcomeKind : FetchOutcome → Option Kind
  | .needPlan k => some k
  | .insufficientBalance k _ => some k
  | .insufficientStock k _ => some k
  | .deliveredLegacy k _ _ _ => some k
  | .deliveredRich k _ _ _ _ => some k
  | _ => none

/-- Whether a fetch outcome actually delivered items. -/
def isDelivered : FetchOutcome → Bool
  | .deliveredLegacy _ _ _ _ => true
  | .deliveredRich _ _ _ _ _ => true
  | _ => false

/-- Whether a redeem outcome is an activation. -/
def isActivatedO : RedeemOutcome → Bool
  | .activated _ _ _ => true
  | _ => false

/-- Whether a redeem outcome is the invalid-key report. -/
def isInvalidKeyO : RedeemOutcome → Bool
  | .invalidKey _ => true
  | _ => false

/-- The usage-cap invariant on one plan record. -/
def planOk (p : PlanState) : Prop := p.usados ≤ p.max

/-- The usage-cap invariant on one user. -/
def userOk (u : User) : Prop := planOk u.planNormal ∧ planOk u.planTarjetas

/-- The usage-cap invariant over every stored user record. -/
def usersOk (s : BotState) : Prop := ∀ p ∈ s.users, userOk p.2

instance : DecidablePred planOk := fun p => inferInstanceAs (Decidable (p.usados ≤ p.max))

instance : DecidablePred userOk := fun u =>
  inferInstanceAs (Decidable (planOk u.planNormal ∧ planOk u.planTarjetas))

instance (s : BotState) : Decidable (usersOk s) :=
  inferInstanceAs (Decidable (∀ p ∈ s.users, userOk p.2))

/-- The empty persisted state. -/
def emptyState : BotState :=
  { users := [], claves := [], cardKeys := [], stock := [], cards := [],
    bans := [], admins := [] }

/-- Witness state for the invalid-key claim: a clean store. -/
def c1ws : BotState := emptyState

/-- State after three invalid redemptions by user 1 from `c1ws`. -/
def c1ws3 : BotState := (keyCmd (keyCmd (keyCmd c1ws 1 "x").2 1 "x").2 1 "x").2

/-- State after three invalid redemptions by the super-admin from a clean
store. -/
def c1cs3 : BotState := (keyCmd (keyCmd (keyCmd emptyState ADMIN "x").2 ADMIN "x").2 ADMIN "x").2

/-- Witness state for single-use keys: one standard key, no users. -/
def c2ws : BotState := { emptyState with claves := [("k", ("Oro 3", 3))] }

/-- Counterexample state for the single-use-key claim: one standard key, and a
second user who already has two invalid attempts on record. -/
def c2cs : BotState :=
  { emptyState with
    claves := [("k", ("P", 5))],
    users := [(2, { planNormal := defaultPlan, planTarjetas := defaultPlan,
                    invalidKeyAttempts := 2 })] }

/-- State `c2cs` after user 1 successfully redeems the key. -/
def c2cs1 : BotState := (keyCmd c2cs 1 "k").2

/-- Witness state for the FIFO fetch scenario: pool `netflix` with three
items, user 1 with standard-plan balance 2. -/
def c3ws : BotState :=
  { emptyState with
    users := [(1, { planNormal := { nombre := "P", max := 2, usados := 0 },
                    planTarjetas := defaultPlan, invalidKeyAttempts := 0 })],
    stock := [("netflix", .legacy ["a", "b", "c"])] }

/-- Counterexample state for the fetch-error frame claim: card pool `bank`
holds two rich items and user 1's card plan stands at 3 of 5 uses. -/
def c4cs : BotState :=
  { emptyState with
    users := [(1, { planNormal := defaultPlan,
                    planTarjetas := { nombre := "T", max := 5, usados := 3 },
                    invalidKeyAttempts := 0 })],
    cards := [("bank", .rich "m"
      [{ account := "c1", fileId := none, fileType := .text },
       { account := "c2", fileId := none, fileType := .text }])] }

/-- Witness state for redemption: one standard key, user 1 with an exhausted
active plan (may be overwritten). -/
def c5ws : BotState :=
  { emptyState with
    claves := [("k", ("Oro 3", 3))],
    users := [(1, { planNormal := { nombre := "Old", max := 2, usados := 2 },
                    planTarjetas := defaultPlan, invalidKeyAttempts := 0 })] }

/-- Witness state for the usage-cap invariant. -/
def c6ws : BotState :=
  { emptyState with
    users := [(1, { planNormal := { nombre := "P", max := 3, usados := 1 },
                    planTarjetas := defaultPlan, invalidKeyAttempts := 0 })],
    claves := [("k", ("Oro 3", 3))],
    stock := [("netflix", .legacy ["a", "b", "c"])] }

/-- Operation sequence exercised in the invariant witness. -/
def c6ops : List Op := [.fetch 1 "netflix" (some 2), .redeem 1 "bad", .redeem 2 "k"]

/-- Counterexample state for the namespace-priority claim: the pool key `x`
exists in the standard namespace (bound to an exhausted, empty legacy list)
and in the card namespace (non-empty); user 1 holds both plans. -/
def c7s : BotState :=
  { emptyState with
    users := [(1, { planNormal := { nombre := "P", max := 5, usados := 0 },
                    planTarjetas := { nombre := "T", max := 5, usados := 0 },
                    invalidKeyAttempts := 0 })],
    stock := [("x", .legacy [])],
    cards := [("x", .legacy ["c1"])] }

/-- Witness state for the amended namespace-priority claim: key `y` present
and non-empty in both namespaces. -/
def c7ws : BotState :=
  { emptyState with
    users := [(1, { planNormal := { nombre := "P", max := 5, usados := 0 },
                    planTarjetas := { nombre := "T", max := 5, usados := 0 },
                    invalidKeyAttempts := 0 })],
    stock := [("y", .legacy ["s1"])],
    cards := [("y", .legacy ["c1"])] }

/-- The three-item buffer accumulated in the ingestion scenario. -/
def c8buf : List RichItem :=
  [{ account := "acc1", fileId := none, fileType := .text },
   { account := "acc2", fileId := none, fileType := .text },
   { account := "acc3", fileId := none, fileType := .text }]

/-- Prior stock overwritten in the ingestion scenario. -/
def c8stock : List (String × Pool) := [("spotify", .legacy ["old"])]

/-- Witness state for unban: admin 5, banned user 7 with plans and a non-zero
attempt counter. -/
def c9ws : BotState :=
  { emptyState with
    admins := [5],
    bans := [7],
    users := [(7, { planNormal := { nombre := "P", max := 4, usados := 1 },
                    planTarjetas := { nombre := "T", max := 2, usados := 2 },
                    invalidKeyAttempts := 2 })] }

/-- Witness state for the ban-guard bypass: both the super-admin id and user 5
are in the ban list. -/
def c10ws : BotState := { emptyState with bans := [ADMIN, 5] }

theorem find?_map_replace {κ α : Type} [BEq κ] [LawfulBEq κ]
    {l : List (κ × α)} {k : κ} {v : α} (h : l.any (fun p => p.1 == k) = true) :
    List.find? (fun p => p.1 == k) (l.map (fun p => if p.1 == k then (k, v) else p))
      = some (k, v) := by
  induction l with
  | nil => simp at h
  | cons p t ih =>
    by_cases hp : (p.1 == k) = true
    · simp only [List.map_cons, if_pos hp]
      exact List.find?_cons_of_pos _ (by simp)
    · simp only [List.any_cons, Bool.or_eq_true] at h
      have ht := h.resolve_left hp
      simp only [List.map_cons, if_neg hp]
      rw [List.find?_cons_of_neg _ (by simpa using hp)]
      exact ih ht

theorem find?_map_replace_ne {κ α : Type} [BEq κ] [LawfulBEq κ]
    {l : List (κ × α)} {k k' : κ} {v : α} (h : k' ≠ k) :
    List.find? (fun p => p.1 == k') (l.map (fun p => if p.1 == k then (k, v) else p))
      = List.find? (fun p => p.1 == k') l := by
  induction l with
  | nil => simp
  | cons p t ih =>
    by_cases hp : (p.1 == k) = true
    · have hpk : (p.1 == k') = false := by
        rw [beq_eq_false_iff_ne, (by simpa using hp : p.1 = k)]
        exact fun hh => h hh.symm
      have hkk : (k == k') = false := by
        rw [beq_eq_false_iff_ne]
        exact fun hh => h hh.symm
      simp only [List.map_cons, if_pos hp]
      rw [List.find?_cons_of_neg _ (by simp [hkk]), List.find?_cons_of_neg _ (by simp [hpk])]
      exact ih
    · simp only [List.map_cons, if_neg hp]
      by_cases hq : (p.1 == k') = true
      · simp only [List.find?_cons, hq]
      · have hq' : (p.1 == k') = false := by simpa using hq
        simp only [List.find?_cons, hq']
        exact ih

theorem lookup?_setKey_self {κ α : Type} [BEq κ] [LawfulBEq κ]
    (l : List (κ × α)) (k : κ) (v : α) :
    lookup? (setKey l k v) k = some v := by
  unfold setKey lookup?
  split
  · rename_i hany
    rw [find?_map_replace hany]
    rfl
  · rename_i hany
    have hn : List.find? (fun p => p.1 == k) l = none := by
      rw [List.find?_eq_none]
      intro x hx hxk
      exact hany (List.any_eq_true.mpr ⟨x, hx, hxk⟩)
    rw [List.find?_append, hn]
    simp [List.find?_cons]

theorem lookup?_setKey_ne {κ α : Type} [BEq κ] [LawfulBEq κ]
    (l : List (κ × α)) (k k' : κ) (v : α) (h : k' ≠ k) :
    lookup? (setKey l k v) k' = lookup? l k' := by
  unfold setKey lookup?
  split
  · rw [find?_map_replace_ne h]
  · have hkk : (k == k') = false := by
      rw [beq_eq_false_iff_ne]
      exact fun hh => h hh.symm
    rw [List.find?_append]
    have h2 : List.find? (fun p => p.1 == k') [(k, v)] = none := by
      simp [List.find?_cons, hkk]
    rw [h2]
    cases List.find? (fun p => p.1 == k') l <;> rfl

theorem lookup?_eraseKey_self {κ α : Type} [BEq κ] [LawfulBEq κ]
    (l : List (κ × α)) (k : κ) :
    lookup? (eraseKey l k) k = none := by
  unfold eraseKey lookup?
  rw [Option.map_eq_none', List.find?_eq_none]
  intro x hx
  have hkeep := List.of_mem_filter hx
  simp only [Bool.not_eq_true'] at hkeep
  simp [hkeep]

theorem lookup?_eraseKey_of_none {κ α : Type} [BEq κ]
    {l : List (κ × α)} {k c : κ} (h : lookup? l k = none) :
    lookup? (eraseKey l c) k = none := by
  unfold eraseKey lookup? at *
  rw [Option.map_eq_none', List.find?_eq_none]
  intro x hx
  rw [Option.map_eq_none', List.find?_eq_none] at h
  exact h x (List.mem_of_mem_filter hx)

theorem mem_setKey {κ α : Type} [BEq κ] {l : List (κ × α)} {k : κ} {v : α}
    {p : κ × α} (hp : p ∈ setKey l k v) : p.2 = v ∨ p ∈ l := by
  unfold setKey at hp
  split at hp
  · obtain ⟨q, hq, heq⟩ := List.mem_map.mp hp
    by_cases hqk : (q.1 == k) = true
    · left
      rw [if_pos hqk] at heq
      rw [← heq]
    · right
      rw [if_neg hqk] at heq
      rw [← heq]
      exact hq
  · rcases List.mem_append.mp hp with h | h
    · right; exact h
    · left
      simp only [List.mem_singleton] at h
      rw [h]

theorem lookup?_userOk {l : List (Int × User)} {k : Int} {u : User}
    (h : lookup? l k = some u) (hall : ∀ p ∈ l, userOk p.2) : userOk u := by
  unfold lookup? at h
  obtain ⟨p, hfind, hp2⟩ := Option.map_eq_some'.mp h
  rw [← hp2]
  exact hall p (List.mem_of_find?_eq_some hfind)

theorem serveBranch_state_or_delivered (s : BotState) (uid : Int) (u : User) (cant : Int)
    (kind : Kind) (key : String) (pool : Pool) :
    (serveBranch s uid u cant kind key pool).2 = s ∨
      isDelivered (serveBranch s uid u cant kind key pool).1 = true := by
  simp only [serveBranch]
  split
  · exact Or.inl rfl
  · split
    · exact Or.inl rfl
    · split
      · split
        · exact Or.inl rfl
        · split
          · exact Or.inl rfl
          · exact Or.inr rfl
      · split
        · exact Or.inl rfl
        · exact Or.inr rfl

theorem getCmdCards_state_or_delivered (s : BotState) (uid : Int) (u : User) (cant : Int)
    (sitio : String) :
    (getCmdCards s uid u cant sitio).2 = s ∨
      isDelivered (getCmdCards s uid u cant sitio).1 = true := by
  simp only [getCmdCards]
  split
  · split
    · apply serveBranch_state_or_delivered
    · exact Or.inl rfl
  · exact Or.inl rfl

theorem getCmd_state_or_delivered (s : BotState) (uid : Int) (site : String)
    (cant : Option Int) :
    (getCmd s uid site cant).2 = s ∨ isDelivered (getCmd s uid site cant).1 = true := by
  simp only [getCmd]
  split
  · exact Or.inl rfl
  · split
    · exact Or.inl rfl
    · split
      · exact Or.inl rfl
      · split
        · exact Or.inl rfl
        · split
          · split
            · apply serveBranch_state_or_delivered
            · apply getCmdCards_state_or_delivered
          · apply getCmdCards_state_or_delivered

/-- C4 (amended): every `Fetch` whose outcome is a reported error (a
malformed quantity, a missing plan, insufficient balance, insufficient stock,
a missing pool, or the ban-guard rejection) leaves the persisted state
exactly unchanged, for every input quantity including non-positive ones.
Only deliveries mutate state — but not every failing fetch reports an error:
see the counterexample, where a card-pool fetch delivers zero items yet
persists a decrement of `usados`. -/
theorem C4_fetch_error_no_state_change (s : BotState) (uid : Int) (site : String)
    (cant : Option Int) (h : isDelivered (getCmd s uid site cant).1 = false) :
    (getCmd s uid site cant).2 = s := by
  rcases getCmd_state_or_delivered s uid site cant with h1 | h1
  · exact h1
  · rw [h1] at h
    cases h

theorem C4_witness :
    isDelivered (getCmd emptyState 1 "netflix" none).1 = false ∧
      (getCmd emptyState 1 "netflix" none).2 = emptyState := by
  exact ⟨by decide, C4_fetch_error_no_state_change emptyState 1 "netflix" none (by decide)⟩

/-- C4 counterexample: with card pool `bank` of depth 2 and card plan at 3/5,
`Fetch(1, "bank", -2)` passes every check (−2 exceeds neither balance nor
depth), slices an empty delivery, and — because only the standard accounts
branch re-checks for an empty delivery — persists `usados += −2`: a fetch
that delivers no items (the caller receives nothing) yet decrements the
stored usedUses from 3 to 1, so not every failing fetch is side-effect-free
on non-positive quantities. -/
theorem C4_counterexample :
    (getCmd c4cs 1 "bank" (some (-2))).1
        = .deliveredRich .card "bank" [] "m" (usosLine 1 5) ∧
    (getUser c4cs 1).planTarjetas.usados = 3 ∧
    (getUser (getCmd c4cs 1 "bank" (some (-2))).2 1).planTarjetas.usados = 1 ∧
    lookup? (getCmd c4cs 1 "bank" (some (-2))).2.cards "bank"
        = lookup? c4cs.cards "bank" ∧
    (getCmd c4cs 1 "bank" (some (-2))).2 ≠ c4cs := by
  decide

theorem serveBranch_not_rejected (s : BotState) (uid : Int) (u : User) (cant : Int)
    (kind : Kind) (key : String) (pool : Pool) :
    (serveBranch s uid u cant kind key pool).1 ≠ .rejectedBanned := by
  simp only [serveBranch]
  split
  · simp
  · split
    · simp
    · split
      · split
        · simp
        · split
          · simp
          · simp
      · split
        · simp
        · simp

theorem getCmdCards_not_rejected (s : BotState) (uid : Int) (u : User) (cant : Int)
    (sitio : String) :
    (getCmdCards s uid u cant sitio).1 ≠ .rejectedBanned := by
  simp only [getCmdCards]
  split
  · split
    · apply serveBranch_not_rejected
    · simp
  · simp

theorem keyCmd_not_rejected (s : BotState) (uid : Int) (code : String)
    (h : banGuardRejects s uid = false) :
    (keyCmd s uid code).1 ≠ .rejectedBanned := by
  simp only [keyCmd, h, Bool.false_eq_true, if_false]
  split
  · split
    · simp
    · simp
  · split
    · split
      · simp
      · simp
    · split
      · simp
      · simp

theorem getCmd_not_rejected (s : BotState) (uid : Int) (site : String) (cant : Option Int)
    (h : banGuardRejects s uid = false) :
    (getCmd s uid site cant).1 ≠ .rejectedBanned := by
  simp only [getCmd, h, Bool.false_eq_true, if_false]
  split
  · simp
  · split
    · simp
    · split
      · simp
      · split
        · split
          · apply serveBranch_not_rejected
          · apply getCmdCards_not_rejected
        · apply getCmdCards_not_rejected

/-- C10: the super-admin id bypasses the ban guard on both guarded user
operations — even when that id is in BanSet, its `Redeem` and `Fetch` calls
are never the ban rejection — while every other banned id is rejected with
the state untouched before the operation body runs. -/
theorem C10_super_admin_bypass (s : BotState) (code site : String) (cant : Option Int) :
    ((keyCmd s ADMIN code).1 ≠ .rejectedBanned ∧
      (getCmd s ADMIN site cant).1 ≠ .rejectedBanned) ∧
    (∀ uid : Int, uid ≠ ADMIN → s.bans.contains uid = true →
      keyCmd s uid code = (.rejectedBanned, s) ∧
        getCmd s uid site cant = (.rejectedBanned, s)) := by
  constructor
  · have hg : banGuardRejects s ADMIN = false := by simp [banGuardRejects]
    exact ⟨keyCmd_not_rejected _ _ _ hg, getCmd_not_rejected _ _ _ _ hg⟩
  · intro uid hne hmem
    have hmem' : uid ∈ s.bans := by simpa using hmem
    have hg : banGuardRejects s uid = true := by
      simp [banGuardRejects, bne_iff_ne, hne, hmem']
    exact ⟨by simp [keyCmd, hg], by simp [getCmd, hg]⟩

theorem C10_witness :
    (keyCmd c10ws ADMIN "x").1 ≠ .rejectedBanned ∧
      keyCmd c10ws 5 "x" = (.rejectedBanned, c10ws) := by
  have h := C10_super_admin_bypass c10ws "x" "s" none
  exact ⟨h.1.1, (h.2 5 (by decide) (by decide)).1⟩

/-- C9: unbanning a banned user removes the id from BanSet and resets the
stored `invalid_key_attempts` to 0 while leaving both plan records — and
every other collection — unchanged. -/
theorem C9_unban_resets_attempts_keeps_plans (s : BotState) (caller target : Int) (u : User)
    (hadm : isAdminFn s caller = true) (hnd : s.bans.Nodup)
    (hb : s.bans.contains target = true) (hu : lookup? s.users target = some u) :
    (unbanUserEnd s caller target).1 = .unbanned ∧
    target ∉ (unbanUserEnd s caller target).2.bans ∧
    lookup? (unbanUserEnd s caller target).2.users target
      = some { u with invalidKeyAttempts := 0 } ∧
    (getUser (unbanUserEnd s caller target).2 target).planNormal = u.planNormal ∧
    (getUser (unbanUserEnd s caller target).2 target).planTarjetas = u.planTarjetas ∧
    (unbanUserEnd s caller target).2.claves = s.claves ∧
    (unbanUserEnd s caller target).2.cardKeys = s.cardKeys ∧
    (unbanUserEnd s caller target).2.stock = s.stock ∧
    (unbanUserEnd s caller target).2.cards = s.cards := by
  have hlk := lookup?_setKey_self s.users target { u with invalidKeyAttempts := 0 }
  have hstep : unbanUserEnd s caller target = (.unbanned, { s with bans := s.bans.erase target, users := setKey s.users target { u with invalidKeyAttempts := 0 } }) := by
    simp only [unbanUserEnd, hadm, hb, hu, Bool.not_true, Bool.false_eq_true, if_false]
  rw [hstep]
  refine ⟨rfl, hnd.not_mem_erase, hlk, ?_, ?_, rfl, rfl, rfl, rfl⟩
  · simp [getUser, hlk]
  · simp [getUser, hlk]

theorem C9_witness :
    (unbanUserEnd c9ws 5 7).1 = .unbanned ∧
    7 ∉ (unbanUserEnd c9ws 5 7).2.bans ∧
    lookup? (unbanUserEnd c9ws 5 7).2.users 7
      = some { planNormal := { nombre := "P", max := 4, usados := 1 },
               planTarjetas := { nombre := "T", max := 2, usados := 2 },
               invalidKeyAttempts := 0 } ∧
    (getUser (unbanUserEnd c9ws 5 7).2 7).planNormal
      = { nombre := "P", max := 4, usados := 1 } := by
  have h := C9_unban_resets_attempts_keeps_plans c9ws 5 7
    { planNormal := { nombre := "P", max := 4, usados := 1 },
      planTarjetas := { nombre := "T", max := 2, usados := 2 },
      invalidKeyAttempts := 2 }
    (by decide) (by decide) (by decide) (by decide)
  exact ⟨h.1, h.2.1, h.2.2.1, h.2.2.2.1⟩

/-- C5: redeeming a code present in the standard-key collection is rejected
with plan-already-active exactly when the user's standard plan is active and
still has positive remaining balance; otherwise the code is consumed and the
standard plan is replaced by the key's plan with zero used uses.  The
symmetric rule holds for card keys against the card plan. -/
theorem C5_already_active_blocks_redeem (s : BotState) (uid : Int) (clave : String)
    (hg : banGuardRejects s uid = false) :
    (∀ plan : String, ∀ maxi : Nat, lookup? s.claves clave = some (plan, maxi) →
      ((getUser s uid).planNormal.nombre ≠ "Sin plan" ∧
          0 < (getUser s uid).planNormal.max - (getUser s uid).planNormal.usados →
        (keyCmd s uid clave).1 = .planAlreadyActive .normal ∧
        lookup? (keyCmd s uid clave).2.claves clave = some (plan, maxi) ∧
        getUser (keyCmd s uid clave).2 uid = getUser s uid) ∧
      (¬((getUser s uid).planNormal.nombre ≠ "Sin plan" ∧
          0 < (getUser s uid).planNormal.max - (getUser s uid).planNormal.usados) →
        (keyCmd s uid clave).1 = .activated .normal plan maxi ∧
        lookup? (keyCmd s uid clave).2.claves clave = none ∧
        (getUser (keyCmd s uid clave).2 uid).planNormal
          = { nombre := plan, max := (maxi : Int), usados := 0 } ∧
        (getUser (keyCmd s uid clave).2 uid).planTarjetas = (getUser s uid).planTarjetas)) ∧
    (∀ plan : String, ∀ maxi : Nat, lookup? s.claves clave = none →
      lookup? s.cardKeys clave = some (plan, maxi) →
      ((getUser s uid).planTarjetas.nombre ≠ "Sin plan" ∧
          0 < (getUser s uid).planTarjetas.max - (getUser s uid).planTarjetas.usados →
        (keyCmd s uid clave).1 = .planAlreadyActive .card ∧
        lookup? (keyCmd s uid clave).2.cardKeys clave = some (plan, maxi) ∧
        getUser (keyCmd s uid clave).2 uid = getUser s uid) ∧
      (¬((getUser s uid).planTarjetas.nombre ≠ "Sin plan" ∧
          0 < (getUser s uid).planTarjetas.max - (getUser s uid).planTarjetas.usados) →
        (keyCmd s uid clave).1 = .activated .card plan maxi ∧
        lookup? (keyCmd s uid clave).2.cardKeys clave = none ∧
        (getUser (keyCmd s uid clave).2 uid).planTarjetas
          = { nombre := plan, max := (maxi : Int), usados := 0 } ∧
        (getUser (keyCmd s uid clave).2 uid).planNormal = (getUser s uid).planNormal)) := by
  constructor
  · intro plan maxi hk
    constructor
    · intro hcond
      have hb : planBlocksRedeem (getUser s uid).planNormal = true := by
        obtain ⟨hc1, hc2⟩ := hcond
        simp only [planBlocksRedeem, Bool.and_eq_true, bne_iff_ne, decide_eq_true_eq]
        exact ⟨hc1, by omega⟩
      have hrun : keyCmd s uid clave
          = (.planAlreadyActive .normal, { s with users := setKey s.users uid (getUser s uid) }) := by
        simp only [keyCmd, hg, Bool.false_eq_true, if_false, hk, hb, if_true]
      rw [hrun]
      exact ⟨rfl, hk, by simp [getUser, lookup?_setKey_self]⟩
    · intro hcond
      have hb : planBlocksRedeem (getUser s uid).planNormal = false := by
        rw [← Bool.not_eq_true]
        intro hh
        simp only [planBlocksRedeem, Bool.and_eq_true, bne_iff_ne, decide_eq_true_eq] at hh
        obtain ⟨hh1, hh2⟩ := hh
        exact hcond ⟨hh1, by omega⟩
      have hrun : keyCmd s uid clave = (.activated .normal plan maxi,
          { s with claves := eraseKey s.claves clave,
                   users := setKey (setKey s.users uid (getUser s uid)) uid
                     { getUser s uid with planNormal := { nombre := plan, max := (maxi : Int), usados := 0 } } }) := by
        simp only [keyCmd, hg, Bool.false_eq_true, if_false, hk, hb, if_false]
      rw [hrun]
      refine ⟨rfl, lookup?_eraseKey_self _ _, ?_, ?_⟩
      · simp [getUser, lookup?_setKey_self]
      · simp [getUser, lookup?_setKey_self]
  · intro plan maxi hn hk
    constructor
    · intro hcond
      have hb : planBlocksRedeem (getUser s uid).planTarjetas = true := by
        obtain ⟨hc1, hc2⟩ := hcond
        simp only [planBlocksRedeem, Bool.and_eq_true, bne_iff_ne, decide_eq_true_eq]
        exact ⟨hc1, by omega⟩
      have hrun : keyCmd s uid clave
          = (.planAlreadyActive .card, { s with users := setKey s.users uid (getUser s uid) }) := by
        simp only [keyCmd, hg, Bool.false_eq_true, if_false, hn, hk, hb, if_true]
      rw [hrun]
      exact ⟨rfl, hk, by simp [getUser, lookup?_setKey_self]⟩
    · intro hcond
      have hb : planBlocksRedeem (getUser s uid).planTarjetas = false := by
        rw [← Bool.not_eq_true]
        intro hh
        simp only [planBlocksRedeem, Bool.and_eq_true, bne_iff_ne, decide_eq_true_eq] at hh
        obtain ⟨hh1, hh2⟩ := hh
        exact hcond ⟨hh1, by omega⟩
      have hrun : keyCmd s uid clave = (.activated .card plan maxi,
          { s with cardKeys := eraseKey s.cardKeys clave,
                   users := setKey (setKey s.users uid (getUser s uid)) uid
                     { getUser s uid with planTarjetas := { nombre := plan, max := (maxi : Int), usados := 0 } } }) := by
        simp only [keyCmd, hg, Bool.false_eq_true, if_false, hn, hk, hb, if_false]
      rw [hrun]
      refine ⟨rfl, lookup?_eraseKey_self _ _, ?_, ?_⟩
      · simp [getUser, lookup?_setKey_self]
      · simp [getUser, lookup?_setKey_self]

theorem C5_witness :
    (keyCmd c5ws 1 "k").1 = .activated .normal "Oro 3" 3 ∧
    lookup? (keyCmd c5ws 1 "k").2.claves "k" = none ∧
    (getUser (keyCmd c5ws 1 "k").2 1).planNormal
      = { nombre := "Oro 3", max := 3, usados := 0 } := by
  have h := ((C5_already_active_blocks_redeem c5ws 1 "k" (by decide)).1 "Oro 3" 3
    (by decide)).2 (by decide)
  exact ⟨h.1, h.2.1, h.2.2.1⟩

theorem keyCmd_rejected_of_guard (s : BotState) (uid : Int) (code : String)
    (h : banGuardRejects s uid = true) : keyCmd s uid code = (.rejectedBanned, s) := by
  simp [keyCmd, h]

theorem getCmd_rejected_of_guard (s : BotState) (uid : Int) (site : String)
    (cant : Option Int) (h : banGuardRejects s uid = true) :
    getCmd s uid site cant = (.rejectedBanned, s) := by
  simp [getCmd, h]

theorem keyCmd_invalid_run (s : BotState) (uid : Int) (code : String)
    (hg : banGuardRejects s uid = false)
    (hn : lookup? s.claves code = none) (hc : lookup? s.cardKeys code = none) :
    keyCmd s uid code =
      (if 3 ≤ (getUser s uid).invalidKeyAttempts + 1 then RedeemOutcome.banned
       else .invalidKey (3 - ((getUser s uid).invalidKeyAttempts + 1)),
       { s with
         users := setKey (setKey s.users uid (getUser s uid)) uid
           { getUser s uid with invalidKeyAttempts := (getUser s uid).invalidKeyAttempts + 1 },
         bans := if 3 ≤ (getUser s uid).invalidKeyAttempts + 1 then
             (if s.bans.contains uid then s.bans else s.bans ++ [uid])
           else s.bans }) := by
  by_cases h3 : 3 ≤ (getUser s uid).invalidKeyAttempts + 1
  · simp only [keyCmd, hg, Bool.false_eq_true, if_false, hn, hc, h3, if_true]
  · simp only [keyCmd, hg, Bool.false_eq_true, if_false, hn, hc, h3, if_false]

theorem keyCmd_invalid_step (s : BotState) (uid : Int) (code : String)
    (hg : banGuardRejects s uid = false)
    (hn : lookup? s.claves code = none) (hc : lookup? s.cardKeys code = none) :
    (getUser (keyCmd s uid code).2 uid).invalidKeyAttempts
        = (getUser s uid).invalidKeyAttempts + 1 ∧
    (keyCmd s uid code).2.claves = s.claves ∧
    (keyCmd s uid code).2.cardKeys = s.cardKeys ∧
    ((getUser s uid).invalidKeyAttempts + 1 < 3 →
      (keyCmd s uid code).2.bans = s.bans ∧
      (keyCmd s uid code).1 = .invalidKey (3 - ((getUser s uid).invalidKeyAttempts + 1))) ∧
    (3 ≤ (getUser s uid).invalidKeyAttempts + 1 →
      (keyCmd s uid code).1 = .banned ∧
      ∀ x : Int, x ∈ s.bans ∨ x = uid → x ∈ (keyCmd s uid code).2.bans) := by
  rw [keyCmd_invalid_run s uid code hg hn hc]
  refine ⟨?_, rfl, rfl, ?_, ?_⟩
  · simp only [getUser, lookup?_setKey_self, Option.getD_some]
  · intro hlt
    rw [if_neg (by omega), if_neg (by omega)]
    exact ⟨rfl, rfl⟩
  · intro h3
    rw [if_pos h3, if_pos h3]
    refine ⟨rfl, ?_⟩
    intro x hx
    by_cases hmem : s.bans.contains uid = true
    · rw [if_pos hmem]
      rcases hx with hx | hx
      · exact hx
      · rw [hx]
        simpa using hmem
    · rw [if_neg hmem]
      rcases hx with hx | hx
      · exact List.mem_append.mpr (Or.inl hx)
      · exact List.mem_append.mpr (Or.inr (by simp [hx]))

/-- C1 (amended): an unknown code increments the caller's invalid-attempt
counter; when the new count reaches 3 the caller is in BanSet and the outcome
is Banned, otherwise the outcome is InvalidKey with 3 − count attempts
remaining.  After exactly three consecutive invalid redemptions a never-banned
user *other than the super-admin id* is in BanSet, and a 4th call — whatever
code it carries — is rejected by the ban guard before any key lookup. -/
theorem C1_invalid_key_attempts_ban (s : BotState) (uid : Int) :
    (∀ code : String, banGuardRejects s uid = false →
      lookup? s.claves code = none → lookup? s.cardKeys code = none →
      (getUser (keyCmd s uid code).2 uid).invalidKeyAttempts
          = (getUser s uid).invalidKeyAttempts + 1 ∧
      (3 ≤ (getUser s uid).invalidKeyAttempts + 1 →
        uid ∈ (keyCmd s uid code).2.bans ∧ (keyCmd s uid code).1 = .banned) ∧
      ((getUser s uid).invalidKeyAttempts + 1 < 3 →
        (keyCmd s uid code).1
            = .invalidKey (3 - ((getUser s uid).invalidKeyAttempts + 1)) ∧
        (keyCmd s uid code).2.bans = s.bans)) ∧
    (∀ c1 c2 c3 : String, uid ≠ ADMIN → uid ∉ s.bans →
      (getUser s uid).invalidKeyAttempts = 0 →
      lookup? s.claves c1 = none → lookup? s.cardKeys c1 = none →
      lookup? s.claves c2 = none → lookup? s.cardKeys c2 = none →
      lookup? s.claves c3 = none → lookup? s.cardKeys c3 = none →
      uid ∈ (keyCmd (keyCmd (keyCmd s uid c1).2 uid c2).2 uid c3).2.bans ∧
      ∀ c4 : String,
        keyCmd (keyCmd (keyCmd (keyCmd s uid c1).2 uid c2).2 uid c3).2 uid c4
          = (.rejectedBanned, (keyCmd (keyCmd (keyCmd s uid c1).2 uid c2).2 uid c3).2)) := by
  constructor
  · intro code hg hn hc
    obtain ⟨ha, -, -, hlt, hge⟩ := keyCmd_invalid_step s uid code hg hn hc
    refine ⟨ha, ?_, ?_⟩
    · intro h3
      obtain ⟨ho, hb⟩ := hge h3
      exact ⟨hb uid (Or.inr rfl), ho⟩
    · intro h3
      obtain ⟨hb, ho⟩ := hlt h3
      exact ⟨ho, hb⟩
  · intro c1 c2 c3 hadm hban h0 hn1 hc1 hn2 hc2 hn3 hc3
    have hcont : s.bans.contains uid = false := by
      rw [← Bool.not_eq_true]
      simpa using hban
    have hg1 : banGuardRejects s uid = false := by
      unfold banGuardRejects
      rw [hcont, Bool.and_false]
    obtain ⟨ha1, hek1, hck1, hlt1, -⟩ := keyCmd_invalid_step s uid c1 hg1 hn1 hc1
    obtain ⟨hbans1, -⟩ := hlt1 (by omega)
    have hg2 : banGuardRejects (keyCmd s uid c1).2 uid = false := by
      unfold banGuardRejects
      rw [hbans1, hcont, Bool.and_false]
    obtain ⟨ha2, hek2, hck2, hlt2, -⟩ := keyCmd_invalid_step (keyCmd s uid c1).2 uid c2 hg2
      (by rw [hek1]; exact hn2) (by rw [hck1]; exact hc2)
    obtain ⟨hbans2, -⟩ := hlt2 (by omega)
    have hg3 : banGuardRejects (keyCmd (keyCmd s uid c1).2 uid c2).2 uid = false := by
      unfold banGuardRejects
      rw [hbans2, hbans1, hcont, Bool.and_false]
    obtain ⟨ha3, hek3, hck3, -, hge3⟩ :=
      keyCmd_invalid_step (keyCmd (keyCmd s uid c1).2 uid c2).2 uid c3 hg3
        (by rw [hek2, hek1]; exact hn3) (by rw [hck2, hck1]; exact hc3)
    obtain ⟨-, hb3⟩ := hge3 (by omega)
    have hmem3 : uid ∈ (keyCmd (keyCmd (keyCmd s uid c1).2 uid c2).2 uid c3).2.bans :=
      hb3 uid (Or.inr rfl)
    refine ⟨hmem3, ?_⟩
    intro c4
    have hgg : banGuardRejects (keyCmd (keyCmd (keyCmd s uid c1).2 uid c2).2 uid c3).2 uid
        = true := by
      unfold banGuardRejects
      rw [Bool.and_eq_true, bne_iff_ne]
      exact ⟨hadm, by simpa using hmem3⟩
    exact keyCmd_rejected_of_guard _ _ _ hgg

theorem C1_witness :
    (keyCmd c1ws 1 "x").1 = RedeemOutcome.invalidKey 2 ∧
    1 ∈ c1ws3.bans ∧
    keyCmd c1ws3 1 "y" = (.rejectedBanned, c1ws3) := by
  have h1 := (C1_invalid_key_attempts_ban c1ws 1).1 "x" (by decide) (by decide) (by decide)
  have h2 := (C1_invalid_key_attempts_ban c1ws 1).2 "x" "x" "x" (by decide) (by decide)
    (by decide) (by decide) (by decide) (by decide) (by decide) (by decide) (by decide)
  exact ⟨(h1.2.2 (by decide)).1, h2.1, h2.2 "y"⟩

/-- C1 counterexample: the super-admin id (a user never banned before) makes
three consecutive invalid redemptions and does land in BanSet, but its 4th
call is not rejected by the ban guard — it proceeds to the key lookup and
reports Banned again. -/
theorem C1_counterexample :
    ADMIN ∈ c1cs3.bans ∧
    (keyCmd c1cs3 ADMIN "x").1 = RedeemOutcome.banned ∧
    (keyCmd c1cs3 ADMIN "x").1 ≠ RedeemOutcome.rejectedBanned ∧
    (getUser (keyCmd c1cs3 ADMIN "x").2 ADMIN).invalidKeyAttempts = 4 := by
  decide

theorem serveBranch_keys_frame (s : BotState) (uid : Int) (u : User) (cant : Int)
    (kind : Kind) (key : String) (pool : Pool) :
    (serveBranch s uid u cant kind key pool).2.claves = s.claves ∧
    (serveBranch s uid u cant kind key pool).2.cardKeys = s.cardKeys := by
  cases kind with
  | normal =>
    simp only [serveBranch, planOf, setPlan, poolsOf, setPools]
    repeat' split
    all_goals exact ⟨rfl, rfl⟩
  | card =>
    simp only [serveBranch, planOf, setPlan, poolsOf, setPools]
    repeat' split
    all_goals exact ⟨rfl, rfl⟩

theorem getCmdCards_keys_frame (s : BotState) (uid : Int) (u : User) (cant : Int)
    (sitio : String) :
    (getCmdCards s uid u cant sitio).2.claves = s.claves ∧
    (getCmdCards s uid u cant sitio).2.cardKeys = s.cardKeys := by
  simp only [getCmdCards]
  split
  · split
    · apply serveBranch_keys_frame
    · exact ⟨rfl, rfl⟩
  · exact ⟨rfl, rfl⟩

theorem getCmd_keys_frame (s : BotState) (uid : Int) (site : String) (cant : Option Int) :
    (getCmd s uid site cant).2.claves = s.claves ∧
    (getCmd s uid site cant).2.cardKeys = s.cardKeys := by
  simp only [getCmd]
  split
  · exact ⟨rfl, rfl⟩
  · split
    · exact ⟨rfl, rfl⟩
    · split
      · exact ⟨rfl, rfl⟩
      · split
        · exact ⟨rfl, rfl⟩
        · split
          · split
            · apply serveBranch_keys_frame
            · apply getCmdCards_keys_frame
          · apply getCmdCards_keys_frame

theorem keyCmd_keys_absent (s : BotState) (uid : Int) (code k : String)
    (h1 : lookup? s.claves k = none) (h2 : lookup? s.cardKeys k = none) :
    lookup? (keyCmd s uid code).2.claves k = none ∧
    lookup? (keyCmd s uid code).2.cardKeys k = none := by
  simp only [keyCmd]
  split
  · exact ⟨h1, h2⟩
  · split
    · split
      · exact ⟨h1, h2⟩
      · exact ⟨lookup?_eraseKey_of_none h1, h2⟩
    · split
      · split
        · exact ⟨h1, h2⟩
        · exact ⟨h1, lookup?_eraseKey_of_none h2⟩
      · split
        · exact ⟨h1, h2⟩
        · exact ⟨h1, h2⟩

theorem execOp_keys_absent (s : BotState) (op : Op) (k : String)
    (h1 : lookup? s.claves k = none) (h2 : lookup? s.cardKeys k = none) :
    lookup? (execOp s op).claves k = none ∧ lookup? (execOp s op).cardKeys k = none := by
  cases op with
  | redeem uid code => exact keyCmd_keys_absent s uid code k h1 h2
  | fetch uid site cant =>
      obtain ⟨e1, e2⟩ := getCmd_keys_frame s uid site cant
      simp only [execOp]
      rw [e1, e2]
      exact ⟨h1, h2⟩

theorem execOps_keys_absent (ops : List Op) : ∀ s : BotState, ∀ k : String,
    lookup? s.claves k = none → lookup? s.cardKeys k = none →
    lookup? (execOps s ops).claves k = none ∧ lookup? (execOps s ops).cardKeys k = none := by
  induction ops with
  | nil => exact fun s k h1 h2 => ⟨h1, h2⟩
  | cons op rest ih =>
      intro s k h1 h2
      obtain ⟨g1, g2⟩ := execOp_keys_absent s op k h1 h2
      simpa [execOps, List.foldl_cons] using ih (execOp s op) k g1 g2

theorem keyCmd_no_activation (s : BotState) (uid : Int) (k : String)
    (h1 : lookup? s.claves k = none) (h2 : lookup? s.cardKeys k = none) :
    isActivatedO (keyCmd s uid k).1 = false := by
  by_cases hg : banGuardRejects s uid = true
  · rw [keyCmd_rejected_of_guard s uid k hg]
    rfl
  · have hg' : banGuardRejects s uid = false := by simpa using hg
    rw [keyCmd_invalid_run s uid k hg' h1 h2]
    by_cases h3 : 3 ≤ (getUser s uid).invalidKeyAttempts + 1
    · rw [if_pos h3]
      rfl
    · rw [if_neg h3]
      rfl

/-- C2 (amended): a successful redemption consumes its code — afterwards the
code is in neither key collection, it stays absent under any further sequence
of redeem and fetch operations, and no later redemption of that code can ever
activate a plan again (its outcome is the invalid-key path or a ban, never a
second activation). -/
theorem C2_keys_single_use (s : BotState) (uid : Int) (k : String)
    (hg : banGuardRejects s uid = false)
    (hone : lookup? s.claves k = none ∨ lookup? s.cardKeys k = none)
    (hsucc : isActivatedO (keyCmd s uid k).1 = true) :
    lookup? (keyCmd s uid k).2.claves k = none ∧
    lookup? (keyCmd s uid k).2.cardKeys k = none ∧
    ∀ ops : List Op,
      lookup? (execOps (keyCmd s uid k).2 ops).claves k = none ∧
      lookup? (execOps (keyCmd s uid k).2 ops).cardKeys k = none ∧
      ∀ uid2 : Int,
        isActivatedO (keyCmd (execOps (keyCmd s uid k).2 ops) uid2 k).1 = false := by
  have hkey : lookup? (keyCmd s uid k).2.claves k = none ∧
      lookup? (keyCmd s uid k).2.cardKeys k = none := by
    cases hv : lookup? s.claves k with
    | some pm =>
        have hcn : lookup? s.cardKeys k = none := by
          rcases hone with h | h
          · rw [hv] at h
            cases h
          · exact h
        by_cases hb : planBlocksRedeem (getUser s uid).planNormal = true
        · have hout : (keyCmd s uid k).1 = .planAlreadyActive .normal := by
            simp only [keyCmd, hg, Bool.false_eq_true, if_false, hv, hb, if_true]
          rw [hout] at hsucc
          simp [isActivatedO] at hsucc
        · have hb' : planBlocksRedeem (getUser s uid).planNormal = false := by
            simpa using hb
          have hrun : keyCmd s uid k = (.activated .normal pm.1 pm.2,
              { s with claves := eraseKey s.claves k,
                       users := setKey (setKey s.users uid (getUser s uid)) uid
                         { getUser s uid with planNormal :=
                             { nombre := pm.1, max := (pm.2 : Int), usados := 0 } } }) := by
            simp only [keyCmd, hg, Bool.false_eq_true, if_false, hv, hb', if_false]
          rw [hrun]
          exact ⟨lookup?_eraseKey_self _ _, hcn⟩
    | none =>
        cases hv2 : lookup? s.cardKeys k with
        | some pm =>
            by_cases hb : planBlocksRedeem (getUser s uid).planTarjetas = true
            · have hout : (keyCmd s uid k).1 = .planAlreadyActive .card := by
                simp only [keyCmd, hg, Bool.false_eq_true, if_false, hv, hv2, hb, if_true]
              rw [hout] at hsucc
              simp [isActivatedO] at hsucc
            · have hb' : planBlocksRedeem (getUser s uid).planTarjetas = false := by
                simpa using hb
              have hrun : keyCmd s uid k = (.activated .card pm.1 pm.2,
                  { s with cardKeys := eraseKey s.cardKeys k,
                           users := setKey (setKey s.users uid (getUser s uid)) uid
                             { getUser s uid with planTarjetas :=
                                 { nombre := pm.1, max := (pm.2 : Int), usados := 0 } } }) := by
                simp only [keyCmd, hg, Bool.false_eq_true, if_false, hv, hv2, hb', if_false]
              rw [hrun]
              exact ⟨hv, lookup?_eraseKey_self _ _⟩
        | none =>
            have hno := keyCmd_no_activation s uid k hv hv2
            rw [hno] at hsucc
            cases hsucc
  refine ⟨hkey.1, hkey.2, ?_⟩
  intro ops
  obtain ⟨g1, g2⟩ := execOps_keys_absent ops (keyCmd s uid k).2 k hkey.1 hkey.2
  exact ⟨g1, g2, fun uid2 => keyCmd_no_activation _ uid2 k g1 g2⟩

theorem C2_witness :
    isActivatedO (keyCmd c2ws 1 "k").1 = true ∧
    lookup? (execOps (keyCmd c2ws 1 "k").2 [.redeem 2 "k"]).claves "k" = none ∧
    isActivatedO (keyCmd (execOps (keyCmd c2ws 1 "k").2 [.redeem 2 "k"]) 2 "k").1 = false := by
  have h := C2_keys_single_use c2ws 1 "k" (by decide) (Or.inr (by decide)) (by decide)
  have h2 := h.2.2 [.redeem 2 "k"]
  exact ⟨by decide, h2.1, h2.2.2 2⟩

/-- C2 counterexample: after user 1 redeems key `k`, user 2 — who already has
two invalid attempts — redeems the consumed code and gets the Banned outcome,
not the InvalidKey (NotFoundError) report the claim promises, although no
second activation occurs. -/
theorem C2_counterexample :
    isActivatedO (keyCmd c2cs 1 "k").1 = true ∧
    (keyCmd c2cs1 2 "k").1 = RedeemOutcome.banned ∧
    isInvalidKeyO (keyCmd c2cs1 2 "k").1 = false := by
  decide

/-- C3: a successful fetch — active standard plan, quantity within the
remaining balance, pool deep enough — removes exactly the first `quantity`
items of the pool (FIFO), increments `usados` by exactly `quantity`, and
returns those items together with the pool's usage message (for rich pools)
and the updated usage string. -/
theorem C3_fetch_fifo_consumption (s : BotState) (uid : Int) (site : String) (cant : Int)
    (u : User) (key : String) (pool : Pool)
    (hg : banGuardRejects s uid = false)
    (hu : lookup? s.users uid = some u)
    (hfind : findCI s.stock (strLower (strTrim site)) = some (key, pool))
    (htruthy : poolTruthy pool = true)
    (hactive : u.planNormal.nombre ≠ "Sin plan")
    (hq1 : 1 ≤ cant)
    (hbal : cant ≤ u.planNormal.max - u.planNormal.usados) :
    (∀ items : List String, pool = .legacy items → cant ≤ (items.length : Int) →
      (getCmd s uid site (some cant)).1
          = .deliveredLegacy .normal key (sliceTo items cant)
              (usosLine (u.planNormal.usados + cant) u.planNormal.max) ∧
      lookup? (getCmd s uid site (some cant)).2.stock key
          = some (.legacy (sliceFrom items cant)) ∧
      (getUser (getCmd s uid site (some cant)).2 uid).planNormal.usados
          = u.planNormal.usados + cant ∧
      sliceTo items cant ++ sliceFrom items cant = items ∧
      (sliceTo items cant).length = cant.toNat) ∧
    (∀ msg : String, ∀ items : List RichItem, pool = .rich msg items →
      cant ≤ (items.length : Int) →
      (getCmd s uid site (some cant)).1
          = .deliveredRich .normal key (sliceTo items cant) msg
              (usosLine (u.planNormal.usados + cant) u.planNormal.max) ∧
      lookup? (getCmd s uid site (some cant)).2.stock key
          = some (.rich msg (sliceFrom items cant)) ∧
      (getUser (getCmd s uid site (some cant)).2 uid).planNormal.usados
          = u.planNormal.usados + cant ∧
      sliceTo items cant ++ sliceFrom items cant = items ∧
      (sliceTo items cant).length = cant.toNat) := by
  have hne : (u.planNormal.nombre == "Sin plan") = false := by
    rw [beq_eq_false_iff_ne]
    exact hactive
  have hblock : ¬(u.planNormal.max - u.planNormal.usados < cant) := by omega
  constructor
  · intro items hpool hdepth
    subst hpool
    have hnil : items.isEmpty = false := by
      rw [List.isEmpty_eq_false_iff_exists_mem]
      cases items with
      | nil => simp at hdepth; omega
      | cons a t => exact ⟨a, by simp⟩
    have hlt : ¬((items.length : Int) < cant) := by omega
    have hrun : getCmd s uid site (some cant)
        = (.deliveredLegacy .normal key (sliceTo items cant)
             (usosLine (u.planNormal.usados + cant) u.planNormal.max),
           { s with stock := setKey s.stock key (.legacy (sliceFrom items cant)),
                    users := setKey s.users uid
                      { u with planNormal :=
                          { u.planNormal with usados := u.planNormal.usados + cant } } }) := by
      simp only [getCmd, hg, Bool.false_eq_true, if_false, hu, hne, Bool.false_and, hfind,
        htruthy, if_true, serveBranch, planOf, setPlan, poolsOf, setPools,
        if_neg hblock, hnil, hlt, decide_eq_true_eq, Bool.or_self, Bool.false_eq_true,
        if_false, decide_False]
    rw [hrun]
    have h0c : (0 : Int) ≤ cant := by omega
    have htd : sliceTo items cant ++ sliceFrom items cant = items := by
      simp only [sliceTo, sliceFrom, if_pos h0c]
      exact List.take_append_drop _ _
    have hlen : (sliceTo items cant).length = cant.toNat := by
      simp only [sliceTo, if_pos h0c, List.length_take]
      omega
    exact ⟨rfl, lookup?_setKey_self _ _ _, by simp [getUser, lookup?_setKey_self], htd, hlen⟩
  · intro msg items hpool hdepth
    subst hpool
    have hnil : items.isEmpty = false := by
      rw [List.isEmpty_eq_false_iff_exists_mem]
      cases items with
      | nil => simp at hdepth; omega
      | cons a t => exact ⟨a, by simp⟩
    have hlt : ¬((items.length : Int) < cant) := by omega
    have hsend : (sliceTo items cant).isEmpty = false := by
      rw [List.isEmpty_eq_false_iff_exists_mem]
      have : (sliceTo items cant).length = cant.toNat := by
        simp only [sliceTo, if_pos (by omega : (0 : Int) ≤ cant), List.length_take]
        omega
      cases hx : sliceTo items cant with
      | nil => rw [hx] at this; simp at this; omega
      | cons a t => exact ⟨a, by simp⟩
    have hrun : getCmd s uid site (some cant)
        = (.deliveredRich .normal key (sliceTo items cant) msg
             (usosLine (u.planNormal.usados + cant) u.planNormal.max),
           { s with stock := setKey s.stock key (.rich msg (sliceFrom items cant)),
                    users := setKey s.users uid
                      { u with planNormal :=
                          { u.planNormal with usados := u.planNormal.usados + cant } } }) := by
      simp only [getCmd, hg, Bool.false_eq_true, if_false, hu, hne, Bool.false_and, hfind,
        htruthy, if_true, serveBranch, planOf, setPlan, poolsOf, setPools,
        emptySendGuard, if_neg hblock, hnil, hlt, hsend, decide_eq_true_eq, Bool.or_self,
        Bool.false_eq_true, if_false, decide_False]
    rw [hrun]
    have h0c : (0 : Int) ≤ cant := by omega
    have htd : sliceTo items cant ++ sliceFrom items cant = items := by
      simp only [sliceTo, sliceFrom, if_pos h0c]
      exact List.take_append_drop _ _
    have hlen : (sliceTo items cant).length = cant.toNat := by
      simp only [sliceTo, if_pos h0c, List.length_take]
      omega
    exact ⟨rfl, lookup?_setKey_self _ _ _, by simp [getUser, lookup?_setKey_self], htd, hlen⟩

theorem C3_witness :
    (getCmd c3ws 1 "netflix" (some 2)).1
        = .deliveredLegacy .normal "netflix" ["a", "b"] (usosLine 2 2) ∧
    lookup? (getCmd c3ws 1 "netflix" (some 2)).2.stock "netflix" = some (.legacy ["c"]) ∧
    (getUser (getCmd c3ws 1 "netflix" (some 2)).2 1).planNormal.usados = 2 ∧
    (getCmd (getCmd c3ws 1 "netflix" (some 2)).2 1 "netflix" (some 1)).1
        = .insufficientBalance .normal 0 := by
  have h := (C3_fetch_fifo_consumption c3ws 1 "netflix" 2
    { planNormal := { nombre := "P", max := 2, usados := 0 },
      planTarjetas := defaultPlan, invalidKeyAttempts := 0 }
    "netflix" (.legacy ["a", "b", "c"])
    (by decide) (by decide) (by decide) (by decide) (by decide) (by decide) (by decide)).1
    ["a", "b", "c"] rfl (by decide)
  refine ⟨?_, ?_, ?_, ?_⟩
  · rw [h.1]
    decide
  · rw [h.2.1]
    decide
  · rw [h.2.2.1]
    decide
  · decide

theorem serveBranch_kind (s : BotState) (uid : Int) (u : User) (cant : Int)
    (kind : Kind) (key : String) (pool : Pool) :
    outcomeKind (serveBranch s uid u cant kind key pool).1 = some kind := by
  cases kind with
  | normal =>
    simp only [serveBranch, planOf, setPlan, poolsOf, setPools]
    repeat' split
    all_goals rfl
  | card =>
    simp only [serveBranch, planOf, setPlan, poolsOf, setPools]
    repeat' split
    all_goals rfl

theorem serveBranch_normal_cards_frame (s : BotState) (uid : Int) (u : User) (cant : Int)
    (key : String) (pool : Pool) :
    (serveBranch s uid u cant .normal key pool).2.cards = s.cards := by
  simp only [serveBranch, planOf, setPlan, poolsOf, setPools]
  repeat' split
  all_goals rfl

theorem serveBranch_card_stock_frame (s : BotState) (uid : Int) (u : User) (cant : Int)
    (key : String) (pool : Pool) :
    (serveBranch s uid u cant .card key pool).2.stock = s.stock := by
  simp only [serveBranch, planOf, setPlan, poolsOf, setPools]
  repeat' split
  all_goals rfl

theorem getCmdCards_not_normal (s : BotState) (uid : Int) (u : User) (cant : Int)
    (sitio : String) :
    outcomeKind (getCmdCards s uid u cant sitio).1 ≠ some .normal ∧
    (getCmdCards s uid u cant sitio).2.stock = s.stock := by
  cases hf : findCI s.cards sitio with
  | none =>
      simp only [getCmdCards, hf]
      exact ⟨by simp [outcomeKind], by trivial⟩
  | some kp =>
      by_cases ht : poolTruthy kp.2 = true
      · simp only [getCmdCards, hf, ht, if_true]
        rw [serveBranch_kind]
        exact ⟨by simp, serveBranch_card_stock_frame s uid u cant kp.1 kp.2⟩
      · have ht' : poolTruthy kp.2 = false := by simpa using ht
        simp only [getCmdCards, hf, ht', Bool.false_eq_true, if_false]
        exact ⟨by simp [outcomeKind], by trivial⟩

/-- C7 (amended): the pool key is resolved case-insensitively against the
standard pools first; when the standard lookup finds an entry with a
non-empty (truthy) value, the outcome comes from the standard namespace and
the card pools are untouched.  Card pools are consulted only when the
standard lookup finds nothing truthy — i.e. no entry, or an entry whose value
is an exhausted (empty, hence falsy) legacy list — in which case the standard
pools are untouched and the outcome never carries the standard tag. -/
theorem C7_standard_namespace_priority (s : BotState) (uid : Int) (site : String)
    (cant : Option Int) :
    (∀ key : String, ∀ pool : Pool,
      findCI s.stock (strLower (strTrim site)) = some (key, pool) →
      poolTruthy pool = true →
      outcomeKind (getCmd s uid site cant).1 ≠ some .card ∧
      (getCmd s uid site cant).2.cards = s.cards) ∧
    ((findCI s.stock (strLower (strTrim site)) = none ∨
      (∃ key : String, ∃ pool : Pool,
        findCI s.stock (strLower (strTrim site)) = some (key, pool) ∧
        poolTruthy pool = false)) →
      outcomeKind (getCmd s uid site cant).1 ≠ some .normal ∧
      (getCmd s uid site cant).2.stock = s.stock) := by
  constructor
  · intro key pool hfind htruthy
    by_cases hg : banGuardRejects s uid = true
    · rw [getCmd_rejected_of_guard s uid site cant hg]
      exact ⟨by simp [outcomeKind], by trivial⟩
    · have hg' : banGuardRejects s uid = false := by simpa using hg
      cases cant with
      | none => simp only [getCmd, hg', Bool.false_eq_true, if_false]; exact ⟨by simp [outcomeKind], by trivial⟩
      | some cv =>
        cases hu : lookup? s.users uid with
        | none =>
            simp only [getCmd, hg', Bool.false_eq_true, if_false, hu]
            exact ⟨by simp [outcomeKind], by trivial⟩
        | some u =>
            by_cases hplan : (u.planNormal.nombre == "Sin plan" &&
                u.planTarjetas.nombre == "Sin plan") = true
            · simp only [getCmd, hg', Bool.false_eq_true, if_false, hu, hplan, if_true]
              exact ⟨by simp [outcomeKind], by trivial⟩
            · have hplan' : (u.planNormal.nombre == "Sin plan" &&
                  u.planTarjetas.nombre == "Sin plan") = false := by simpa using hplan
              simp only [getCmd, hg', Bool.false_eq_true, if_false, hu, hplan', hfind,
                htruthy, if_true]
              rw [serveBranch_kind]
              exact ⟨by simp, serveBranch_normal_cards_frame s uid u cv key pool⟩
  · intro hmiss
    by_cases hg : banGuardRejects s uid = true
    · rw [getCmd_rejected_of_guard s uid site cant hg]
      exact ⟨by simp [outcomeKind], by trivial⟩
    · have hg' : banGuardRejects s uid = false := by simpa using hg
      cases cant with
      | none => simp only [getCmd, hg', Bool.false_eq_true, if_false]; exact ⟨by simp [outcomeKind], by trivial⟩
      | some cv =>
        cases hu : lookup? s.users uid with
        | none =>
            simp only [getCmd, hg', Bool.false_eq_true, if_false, hu]
            exact ⟨by simp [outcomeKind], by trivial⟩
        | some u =>
            by_cases hplan : (u.planNormal.nombre == "Sin plan" &&
                u.planTarjetas.nombre == "Sin plan") = true
            · simp only [getCmd, hg', Bool.false_eq_true, if_false, hu, hplan, if_true]
              exact ⟨by simp [outcomeKind], by trivial⟩
            · have hplan' : (u.planNormal.nombre == "Sin plan" &&
                  u.planTarjetas.nombre == "Sin plan") = false := by simpa using hplan
              rcases hmiss with hnone | ⟨key, pool, hfind, hfalsy⟩
              · simp only [getCmd, hg', Bool.false_eq_true, if_false, hu, hplan', hnone]
                exact getCmdCards_not_normal s uid u cv (strLower (strTrim site))
              · simp only [getCmd, hg', Bool.false_eq_true, if_false, hu, hplan', hfind,
                  hfalsy, Bool.false_eq_true, if_false]
                exact getCmdCards_not_normal s uid u cv key

theorem C7_witness :
    outcomeKind (getCmd c7ws 1 "y" (some 1)).1 ≠ some Kind.card ∧
    (getCmd c7ws 1 "y" (some 1)).2.cards = c7ws.cards := by
  exact (C7_standard_namespace_priority c7ws 1 "y" (some 1)).1 "y" (.legacy ["s1"])
    (by decide) (by decide)

/-- C7 counterexample: pool key `x` *is present* in the standard namespace
(bound to an exhausted, empty legacy list), yet the fetch is served from the
card namespace — the card pool is consulted and consumed — because the code
tests Python truthiness of the found value rather than key presence. -/
theorem C7_counterexample :
    lookup? c7s.stock "x" = some (Pool.legacy []) ∧
    (getCmd c7s 1 "x" (some 1)).1 = .deliveredLegacy .card "x" ["c1"] (usosLine 1 5) ∧
    lookup? (getCmd c7s 1 "x" (some 1)).2.cards "x" = some (Pool.legacy []) := by
  decide

/-- C8: finishing a completed standard-stock ingestion session commits the
accumulated buffer as a full replacement of the pool entry at the stored
(lower-cased) pool key: afterwards that key holds exactly the buffered items
and the usage message, any prior entry at that key is overwritten, and every
other key is untouched. -/
theorem C8_finish_commits_replacement (stock : List (String × Pool)) (site msg : String)
    (buf : List RichItem) (hbuf : buf ≠ []) :
    stockFlowStep stock (.awaitingAccounts site msg buf) .doneCmd
        = (.idle, setKey stock site (.rich msg buf)) ∧
    lookup? (setKey stock site (.rich msg buf)) site = some (.rich msg buf) ∧
    ∀ k : String, k ≠ site → lookup? (setKey stock site (.rich msg buf)) k = lookup? stock k := by
  have hbe : buf.isEmpty = false := by
    cases buf with
    | nil => exact absurd rfl hbuf
    | cons a t => rfl
  refine ⟨?_, lookup?_setKey_self _ _ _, fun k hk => lookup?_setKey_ne _ _ _ _ hk⟩
  simp only [stockFlowStep, hbe, Bool.false_eq_true, if_false]

theorem C8_witness :
    runIngest (c8stock, .awaitingSite)
        [.textMsg "Spotify", .textMsg "n/a", .textMsg "acc1\nacc2", .textMsg "acc3", .doneCmd]
      = ([("spotify", .rich "n/a" c8buf)], .idle) ∧
    c8buf.length = 3 ∧
    stockFlowStep c8stock (.awaitingAccounts "spotify" "n/a" c8buf) .doneCmd
      = (.idle, setKey c8stock "spotify" (.rich "n/a" c8buf)) ∧
    lookup? (setKey c8stock "spotify" (.rich "n/a" c8buf)) "spotify"
      = some (.rich "n/a" c8buf) := by
  have h := C8_finish_commits_replacement c8stock "spotify" "n/a" c8buf (by decide)
  exact ⟨by decide, by decide, h.1, h.2.1⟩

theorem userOk_getUser (s : BotState) (uid : Int) (h : usersOk s) :
    userOk (getUser s uid) := by
  unfold getUser
  cases hv : lookup? s.users uid with
  | none =>
      simp only [Option.getD_none]
      decide
  | some u =>
      simp only [Option.getD_some]
      exact lookup?_userOk hv h

theorem keyCmd_preserves_usersOk (s : BotState) (uid : Int) (code : String)
    (h : usersOk s) : usersOk (keyCmd s uid code).2 := by
  have hu := userOk_getUser s uid h
  have hset : ∀ v : User, userOk v → ∀ p ∈ setKey s.users uid v, userOk p.2 := by
    intro v hv p hp
    rcases mem_setKey hp with he | hm
    · rw [he]
      exact hv
    · exact h p hm
  have hset2 : ∀ v w : User, userOk v → userOk w →
      ∀ p ∈ setKey (setKey s.users uid v) uid w, userOk p.2 := by
    intro v w hv hw p hp
    rcases mem_setKey hp with he | hm
    · rw [he]
      exact hw
    · exact hset v hv p hm
  simp only [keyCmd]
  split
  · exact h
  · split
    · split
      · exact fun p hp => hset _ hu p hp
      · intro p hp
        rcases mem_setKey hp with he | hm
        · rw [he]
          exact ⟨by simp [planOk], hu.2⟩
        · exact hset _ hu p hm
    · split
      · split
        · exact fun p hp => hset _ hu p hp
        · intro p hp
          rcases mem_setKey hp with he | hm
          · rw [he]
            exact ⟨hu.1, by simp [planOk]⟩
          · exact hset _ hu p hm
      · split
        · intro p hp
          rcases mem_setKey hp with he | hm
          · rw [he]
            exact ⟨hu.1, hu.2⟩
          · exact hset _ hu p hm
        · intro p hp
          rcases mem_setKey hp with he | hm
          · rw [he]
            exact ⟨hu.1, hu.2⟩
          · exact hset _ hu p hm

theorem serveBranch_preserves_usersOk (s : BotState) (uid : Int) (u : User) (cant : Int)
    (kind : Kind) (key : String) (pool : Pool)
    (h : usersOk s) (hu : userOk u) :
    usersOk (serveBranch s uid u cant kind key pool).2 := by
  cases kind with
  | normal =>
    simp only [serveBranch, planOf, setPlan, poolsOf, setPools]
    split
    · exact h
    · split
      · exact h
      · rename_i hbal
        split
        · split
          · exact h
          · split
            · exact h
            · intro p hp
              rcases mem_setKey hp with he | hm
              · rw [he]
                exact ⟨by simp only [planOk] at hu ⊢; omega, hu.2⟩
              · exact h p hm
        · split
          · exact h
          · intro p hp
            rcases mem_setKey hp with he | hm
            · rw [he]
              exact ⟨by simp only [planOk] at hu ⊢; omega, hu.2⟩
            · exact h p hm
  | card =>
    simp only [serveBranch, planOf, setPlan, poolsOf, setPools]
    split
    · exact h
    · split
      · exact h
      · rename_i hbal
        split
        · split
          · exact h
          · split
            · exact h
            · intro p hp
              rcases mem_setKey hp with he | hm
              · rw [he]
                exact ⟨hu.1, by simp only [planOk] at hu ⊢; omega⟩
              · exact h p hm
        · split
          · exact h
          · intro p hp
            rcases mem_setKey hp with he | hm
            · rw [he]
              exact ⟨hu.1, by simp only [planOk] at hu ⊢; omega⟩
            · exact h p hm

theorem getCmdCards_preserves_usersOk (s : BotState) (uid : Int) (u : User) (cant : Int)
    (sitio : String) (h : usersOk s) (hu : userOk u) :
    usersOk (getCmdCards s uid u cant sitio).2 := by
  cases hf : findCI s.cards sitio with
  | none =>
      simp only [getCmdCards, hf]
      exact h
  | some kp =>
      by_cases ht : poolTruthy kp.2 = true
      · simp only [getCmdCards, hf, ht, if_true]
        exact serveBranch_preserves_usersOk s uid u cant .card kp.1 kp.2 h hu
      · have ht' : poolTruthy kp.2 = false := by simpa using ht
        simp only [getCmdCards, hf, ht', Bool.false_eq_true, if_false]
        exact h

theorem getCmd_preserves_usersOk (s : BotState) (uid : Int) (site : String)
    (cant : Option Int) (h : usersOk s) : usersOk (getCmd s uid site cant).2 := by
  by_cases hg : banGuardRejects s uid = true
  · rw [getCmd_rejected_of_guard s uid site cant hg]
    exact h
  · have hg' : banGuardRejects s uid = false := by simpa using hg
    cases cant with
    | none =>
        simp only [getCmd, hg', Bool.false_eq_true, if_false]
        exact h
    | some cv =>
      cases hu : lookup? s.users uid with
      | none =>
          simp only [getCmd, hg', Bool.false_eq_true, if_false, hu]
          exact h
      | some u =>
        have huo : userOk u := lookup?_userOk hu h
        by_cases hplan : (u.planNormal.nombre == "Sin plan" &&
            u.planTarjetas.nombre == "Sin plan") = true
        · simp only [getCmd, hg', Bool.false_eq_true, if_false, hu, hplan, if_true]
          exact h
        · have hplan' : (u.planNormal.nombre == "Sin plan" &&
              u.planTarjetas.nombre == "Sin plan") = false := by simpa using hplan
          cases hf : findCI s.stock (strLower (strTrim site)) with
          | none =>
              simp only [getCmd, hg', Bool.false_eq_true, if_false, hu, hplan', hf]
              exact getCmdCards_preserves_usersOk s uid u cv _ h huo
          | some kp =>
            by_cases ht : poolTruthy kp.2 = true
            · simp only [getCmd, hg', Bool.false_eq_true, if_false, hu, hplan', hf, ht,
                if_true]
              exact serveBranch_preserves_usersOk s uid u cv .normal kp.1 kp.2 h huo
            · have ht' : poolTruthy kp.2 = false := by simpa using ht
              simp only [getCmd, hg', Bool.false_eq_true, if_false, hu, hplan', hf, ht',
                Bool.false_eq_true, if_false]
              exact getCmdCards_preserves_usersOk s uid u cv _ h huo

theorem execOp_preserves_usersOk (s : BotState) (op : Op) (h : usersOk s) :
    usersOk (execOp s op) := by
  cases op with
  | redeem uid code => exact keyCmd_preserves_usersOk s uid code h
  | fetch uid site cant => exact getCmd_preserves_usersOk s uid site cant h

/-- C6: the usage-cap invariant `usados ≤ max` on both plan records of every
user is preserved by every sequence of redeem and fetch operations from any
state satisfying it — in particular it holds after every fetch. -/
theorem C6_usage_cap_invariant (s : BotState) (h : usersOk s) (ops : List Op) :
    usersOk (execOps s ops) ∧
    ∀ uid : Int,
      (getUser (execOps s ops) uid).planNormal.usados
          ≤ (getUser (execOps s ops) uid).planNormal.max ∧
      (getUser (execOps s ops) uid).planTarjetas.usados
          ≤ (getUser (execOps s ops) uid).planTarjetas.max := by
  have hall : usersOk (execOps s ops) := by
    induction ops generalizing s with
    | nil => exact h
    | cons op rest ih =>
        simpa [execOps, List.foldl_cons] using ih (execOp s op) (execOp_preserves_usersOk s op h)
  refine ⟨hall, fun uid => ?_⟩
  exact userOk_getUser (execOps s ops) uid hall

theorem C6_witness :
    usersOk c6ws ∧ usersOk (execOps c6ws c6ops) ∧
    (getUser (execOps c6ws c6ops) 1).planNormal.usados
        ≤ (getUser (execOps c6ws c6ops) 1).planNormal.max := by
  have h := C6_usage_cap_invariant c6ws (by decide) c6ops
  exact ⟨by decide, h.1, (h.2 1).1⟩
